import Mathlib

/-!
Shallow embedding of the rbxts-transformer-setget rewrite pass.

The embedding follows `src/transformer.ts` and `src/util.ts`:

* `Node` is the typed syntax tree.  A `propertyAccess` node carries a
  `Resolution`, the cached answer of `getGetterSetterDeclarations` (the
  TypeScript type-checker oracle): for each of the getter and the setter
  declaration, `none` when no such declaration resolves, and `some b`
  when one resolves with `b = isFromNodeModules declaration`.  Nodes
  built by the factory during the rewrite carry the empty resolution
  `⟨none, none⟩`, since a synthesized identifier resolves to no accessor
  declaration.
* Parent pointers do not exist in a functional tree, so the visitor
  threads the chain of ancestors (innermost first) as an explicit
  `path : List Node`; `getAncestorOfType` walks that list exactly as the
  source walks `node.parent`.
* `writeLine` followed by `process.exit(1)` is modelled as `Except.error`
  carrying a `Diag` value that holds the nodes whose source text appears
  in the printed message; the error propagates through the whole
  traversal, so a fatal condition aborts the run with no partial output.
* Tokens that can never match the predicates used by the pass (operator
  tokens, modifier tokens, the identifier token of a property-access or
  declaration name, type nodes) are elided from the child lists.
-/

/-- Result of `getGetterSetterDeclarations` for a property-access node, as the
pass consumes it: existence of the getter/setter declaration and, when it
exists, whether `isFromNodeModules` holds for it. -/
structure Resolution where
  getter : Option Bool
  setter : Option Bool
deriving DecidableEq, Repr

/-- The empty resolution: no getter and no setter declaration resolve.  This is
what the oracle answers for a synthesized property access. -/
def noRes : Resolution := ⟨none, none⟩

/-- The binary-operator tokens the pass distinguishes: `=`, the fifteen
compound-assignment tokens of `assignmentTokenLookup`, their non-assignment
counterparts, `==` as a representative non-assignment operator, and a catch-all
for every other operator token. -/
inductive BinOp where
  | equalsToken
  | plusEqualsToken | minusEqualsToken | asteriskEqualsToken
  | asteriskAsteriskEqualsToken | slashEqualsToken | percentEqualsToken
  | lessThanLessThanEqualsToken | greaterThanGreaterThanEqualsToken
  | greaterThanGreaterThanGreaterThanEqualsToken | ampersandEqualsToken
  | barEqualsToken | barBarEqualsToken | ampersandAmpersandEqualsToken
  | questionQuestionEqualsToken | caretEqualsToken
  | plusToken | minusToken | asteriskToken | asteriskAsteriskToken
  | slashToken | percentToken | lessThanLessThanToken
  | greaterThanGreaterThanToken | greaterThanGreaterThanGreaterThanToken
  | ampersandToken | barToken | barBarToken | ampersandAmpersandToken
  | questionQuestionToken | caretToken
  | equalsEqualsToken
  | otherToken
deriving DecidableEq, Repr

/-- The postfix unary operators: `++` and `--`. -/
inductive PostfixOp where
  | plusPlusToken
  | minusMinusToken
deriving DecidableEq, Repr

mutual
/-- The syntax tree.  Expression constructors mirror the TypeScript node kinds
the pass dispatches on; `call` covers both `createCallExpression`
(`isChain = false`) and `createCallChain` (`isChain = true`, with the chain's
`questionDotToken` as `questionDot`).  `parameter` keeps its initializer as a
zero-or-one element list. -/
inductive Node where
  | identifier (name : String)
  | numericLiteral (value : Nat)
  | propertyAccess (expression : Node) (name : String) (questionDot : Bool)
      (res : Resolution)
  | binary (left : Node) (op : BinOp) (right : Node)
  | postfixUnary (operand : Node) (op : PostfixOp)
  | paren (expression : Node)
  | asExpr (expression : Node)
  | newExpr (callee : Node) (args : NodeList)
  | call (callee : Node) (isChain : Bool) (questionDot : Bool) (args : NodeList)
  | elementAccess (expression : Node) (index : Node)
  | getAccessorDecl (modifiers : List String) (name : String)
      (params : NodeList) (body : NodeList)
  | setAccessorDecl (modifiers : List String) (name : String)
      (params : NodeList) (body : NodeList)
  | methodDecl (modifiers : List String) (name : String)
      (params : NodeList) (body : NodeList)
  | parameter (name : String) (initializer : NodeList)
  | exprStatement (expression : Node)
  | block (stmts : NodeList)
  | classDecl (name : String) (members : NodeList)
  | sourceFile (stmts : NodeList)

/-- A list of nodes (argument lists, statement lists, member lists). -/
inductive NodeList where
  | nil
  | cons (head : Node) (tail : NodeList)
end

deriving instance DecidableEq for Node
deriving instance DecidableEq for NodeList

/-- Concatenation of node lists. -/
def NodeList.append : NodeList → NodeList → NodeList
  | .nil, l => l
  | .cons h t, l => .cons h (t.append l)

/-- Length of a node list. -/
def NodeList.length : NodeList → Nat
  | .nil => 0
  | .cons _ t => t.length + 1

/-- The children `forEachChild` visits, in visiting order, restricted to nodes
that can match the pass's predicates (tokens, identifier names and type nodes
are elided, see the header). -/
def children : Node → NodeList
  | .identifier _ => .nil
  | .numericLiteral _ => .nil
  | .propertyAccess e _ _ _ => .cons e .nil
  | .binary l _ r => .cons l (.cons r .nil)
  | .postfixUnary e _ => .cons e .nil
  | .paren e => .cons e .nil
  | .asExpr e => .cons e .nil
  | .newExpr c args => .cons c args
  | .call c _ _ args => .cons c args
  | .elementAccess e i => .cons e (.cons i .nil)
  | .getAccessorDecl _ _ params body => params.append body
  | .setAccessorDecl _ _ params body => params.append body
  | .methodDecl _ _ params body => params.append body
  | .parameter _ init => init
  | .exprStatement e => .cons e .nil
  | .block ss => ss
  | .classDecl _ ms => ms
  | .sourceFile ss => ss

mutual
/-- Structural size of a node, used as the termination measure of the
tree-walking functions. -/
def msize : Node → Nat
  | .identifier _ => 1
  | .numericLiteral _ => 1
  | .propertyAccess e _ _ _ => 1 + msize e
  | .binary l _ r => 1 + (msize l + msize r)
  | .postfixUnary e _ => 1 + msize e
  | .paren e => 1 + msize e
  | .asExpr e => 1 + msize e
  | .newExpr c args => 1 + (msize c + msizeList args)
  | .call c _ _ args => 1 + (msize c + msizeList args)
  | .elementAccess e i => 1 + (msize e + msize i)
  | .getAccessorDecl _ _ params body => 1 + (msizeList params + msizeList body)
  | .setAccessorDecl _ _ params body => 1 + (msizeList params + msizeList body)
  | .methodDecl _ _ params body => 1 + (msizeList params + msizeList body)
  | .parameter _ init => 1 + msizeList init
  | .exprStatement e => 1 + msize e
  | .block ss => 1 + msizeList ss
  | .classDecl _ ms => 1 + msizeList ms
  | .sourceFile ss => 1 + msizeList ss

/-- Structural size of a node list. -/
def msizeList : NodeList → Nat
  | .nil => 0
  | .cons h t => msize h + msizeList t
end

theorem msizeList_append (a b : NodeList) :
    msizeList (a.append b) = msizeList a + msizeList b := by
  cases a with
  | nil => simp [NodeList.append, msizeList]
  | cons h t => simp [NodeList.append, msizeList, msizeList_append t b]; omega

theorem msize_pos (n : Node) : 1 ≤ msize n := by
  cases n <;> simp [msize]

theorem msizeList_children_lt (n : Node) : msizeList (children n) < msize n := by
  cases n <;> simp [children, msize, msizeList, msizeList_append] <;> omega

/-- `ts.isPropertyAccessExpression`. -/
def isPropertyAccessExpressionB : Node → Bool
  | .propertyAccess _ _ _ _ => true
  | _ => false

/-- `ts.isNewExpression`. -/
def isNewExpressionB : Node → Bool
  | .newExpr _ _ => true
  | _ => false

/-- `ts.isGetAccessor`. -/
def isGetAccessorB : Node → Bool
  | .getAccessorDecl _ _ _ _ => true
  | _ => false

/-- `ts.isSetAccessor`. -/
def isSetAccessorB : Node → Bool
  | .setAccessorDecl _ _ _ _ => true
  | _ => false

/-- `ts.isExpression`: the constructors that are expression kinds. -/
def isExpressionB : Node → Bool
  | .identifier _ => true
  | .numericLiteral _ => true
  | .propertyAccess _ _ _ _ => true
  | .binary _ _ _ => true
  | .postfixUnary _ _ => true
  | .paren _ => true
  | .asExpr _ => true
  | .newExpr _ _ => true
  | .call _ _ _ _ => true
  | .elementAccess _ _ => true
  | _ => false

/-- `ts.isLeftHandSideExpression`: member, call, new, parenthesized and primary
expressions; not binary, postfix-unary or `as` expressions. -/
def isLeftHandSideExpressionB : Node → Bool
  | .identifier _ => true
  | .numericLiteral _ => true
  | .propertyAccess _ _ _ _ => true
  | .paren _ => true
  | .newExpr _ _ => true
  | .call _ _ _ _ => true
  | .elementAccess _ _ => true
  | _ => false

/-- `ts.isAssignmentOperator`: `=` and the fifteen compound-assignment
tokens (`FirstAssignment` through `LastAssignment`). -/
def isAssignmentOperator : BinOp → Bool
  | .equalsToken => true
  | .plusEqualsToken => true
  | .minusEqualsToken => true
  | .asteriskEqualsToken => true
  | .asteriskAsteriskEqualsToken => true
  | .slashEqualsToken => true
  | .percentEqualsToken => true
  | .lessThanLessThanEqualsToken => true
  | .greaterThanGreaterThanEqualsToken => true
  | .greaterThanGreaterThanGreaterThanEqualsToken => true
  | .ampersandEqualsToken => true
  | .barEqualsToken => true
  | .barBarEqualsToken => true
  | .ampersandAmpersandEqualsToken => true
  | .questionQuestionEqualsToken => true
  | .caretEqualsToken => true
  | _ => false

/-- `ts.isCompoundAssignment`: the fifteen compound-assignment tokens
(`FirstCompoundAssignment` through `LastCompoundAssignment`), excluding `=`. -/
def isCompoundAssignment : BinOp → Bool
  | .plusEqualsToken => true
  | .minusEqualsToken => true
  | .asteriskEqualsToken => true
  | .asteriskAsteriskEqualsToken => true
  | .slashEqualsToken => true
  | .percentEqualsToken => true
  | .lessThanLessThanEqualsToken => true
  | .greaterThanGreaterThanEqualsToken => true
  | .greaterThanGreaterThanGreaterThanEqualsToken => true
  | .ampersandEqualsToken => true
  | .barEqualsToken => true
  | .barBarEqualsToken => true
  | .ampersandAmpersandEqualsToken => true
  | .questionQuestionEqualsToken => true
  | .caretEqualsToken => true
  | _ => false

/-- `ts.isAssignmentExpression(node)` with `excludeCompoundAssignment`
left out: a binary expression whose operator is an assignment operator and
whose left operand is a left-hand-side expression. -/
def isAssignmentExpressionB : Node → Bool
  | .binary l op _ => isAssignmentOperator op && isLeftHandSideExpressionB l
  | _ => false

/-- `assignmentTokenLookup`: each compound-assignment token's non-assignment
counterpart (`+=` to `+`, ..., `??=` to `??`). -/
def assignmentTokenLookup : BinOp → BinOp
  | .plusEqualsToken => .plusToken
  | .minusEqualsToken => .minusToken
  | .asteriskEqualsToken => .asteriskToken
  | .asteriskAsteriskEqualsToken => .asteriskAsteriskToken
  | .slashEqualsToken => .slashToken
  | .percentEqualsToken => .percentToken
  | .lessThanLessThanEqualsToken => .lessThanLessThanToken
  | .greaterThanGreaterThanEqualsToken => .greaterThanGreaterThanToken
  | .greaterThanGreaterThanGreaterThanEqualsToken =>
      .greaterThanGreaterThanGreaterThanToken
  | .ampersandEqualsToken => .ampersandToken
  | .barEqualsToken => .barToken
  | .barBarEqualsToken => .barBarToken
  | .ampersandAmpersandEqualsToken => .ampersandAmpersandToken
  | .questionQuestionEqualsToken => .questionQuestionToken
  | .caretEqualsToken => .caretToken
  | _ => .otherToken

/-- `postfixUnaryOperatorLookup`: `++` to `+`, `--` to `-`. -/
def postfixUnaryOperatorLookup : PostfixOp → BinOp
  | .plusPlusToken => .plusToken
  | .minusMinusToken => .minusToken

/-- `isTuple(parent, ts.isAsExpression, ts.isParenthesizedExpression)`:
the transparent wrapper test of `getAncestorOfType`. -/
def isAsOrParen : Node → Bool
  | .asExpr _ => true
  | .paren _ => true
  | _ => false

/-- The `expression` field of a transparent wrapper, for the source's
`parent.expression === currentNode` test. -/
def wrapperExpression : Node → Option Node
  | .asExpr e => some e
  | .paren e => some e
  | _ => none

/-- `getAncestorOfType` of `util.ts`, over the explicit ancestor chain
(innermost ancestor first): walk parents upward, return the first one
satisfying `check`; continue past a parent only when it is a parenthesized or
`as` expression whose `expression` is the node walked from; stop otherwise. -/
def getAncestorOfType (check : Node → Bool) (node : Node) :
    List Node → Option Node
  | [] => none
  | parent :: rest =>
    if check parent then some parent
    else if isAsOrParen parent ∧ wrapperExpression parent = some node then
      getAncestorOfType check parent rest
    else none

/-- The `.expression` field of a property-access expression (identity on other
nodes, on which the source never reads it). -/
def Node.getExpression : Node → Node
  | .propertyAccess e _ _ _ => e
  | n => n

/-- The `.left` field of a binary expression. -/
def Node.getLeft : Node → Node
  | .binary l _ _ => l
  | n => n

/-- The `.right` field of a binary expression. -/
def Node.getRight : Node → Node
  | .binary _ _ r => r
  | n => n

/-- The `.name.getText()` of a property-access expression. -/
def Node.accessName : Node → String
  | .propertyAccess _ s _ _ => s
  | _ => ""

/-- The resolution the oracle cached on a property-access node. -/
def Node.resolutionOf : Node → Resolution
  | .propertyAccess _ _ _ r => r
  | _ => noRes

/-- `getChildOfType` of `util.ts`, search part: first node of the forest (in
`forEachChild` order, each tree searched root first) satisfying `check`. -/
def getChildOfTypeGo (check : Node → Bool) (l : NodeList) : Option Node :=
  match l with
  | .nil => none
  | .cons c cs =>
    if check c then some c
    else
      match getChildOfTypeGo check (children c) with
      | some r => some r
      | none => getChildOfTypeGo check cs
termination_by msizeList l
decreasing_by
  · rename_i c cs
    have h1 := msizeList_children_lt c
    simp [msizeList]; omega
  · rename_i c cs
    have h1 := msize_pos c
    simp [msizeList]; omega

/-- `getChildOfType(node, check)`: first descendant of `node` (pre-order,
depth-first, first-match short-circuit) satisfying `check`. -/
def getChildOfType (check : Node → Bool) (n : Node) : Option Node :=
  getChildOfTypeGo check (children n)

/-- `getDescendantsOfType` of `util.ts`, search part: all nodes of the forest
satisfying `check`, in visiting order. -/
def getDescendantsOfTypeGo (check : Node → Bool) (l : NodeList) : NodeList :=
  match l with
  | .nil => .nil
  | .cons c cs =>
    let deeper :=
      (getDescendantsOfTypeGo check (children c)).append
        (getDescendantsOfTypeGo check cs)
    if check c then .cons c deeper else deeper
termination_by msizeList l
decreasing_by
  all_goals
    rename_i c
    simp [msizeList]
    first
    | (have h1 := msizeList_children_lt c
       omega)
    | (have h1 := msize_pos c
       omega)

/-- `getDescendantsOfType(node, check)`: every descendant of `node` satisfying
`check`. -/
def getDescendantsOfType (check : Node → Bool) (n : Node) : NodeList :=
  getDescendantsOfTypeGo check (children n)

/-- `isChildOfNode` of `util.ts`, search part: does the forest contain `node`
(compared with `===`, modelled as structural equality)? -/
def isChildOfNodeGo (node : Node) (l : NodeList) : Bool :=
  match l with
  | .nil => false
  | .cons c cs =>
    (c = node : Bool) || isChildOfNodeGo node (children c) || isChildOfNodeGo node cs
termination_by msizeList l
decreasing_by
  all_goals
    rename_i c
    simp [msizeList]
    first
    | (have h1 := msizeList_children_lt c
       omega)
    | (have h1 := msize_pos c
       omega)

/-- `isChildOfNode(parent, node)`: is `node` a strict descendant of
`parent`? -/
def isChildOfNode (parent node : Node) : Bool :=
  isChildOfNodeGo node (children parent)

theorem getChildOfTypeGo_msize (check : Node → Bool) :
    ∀ (fuel : Nat) (l : NodeList), msizeList l ≤ fuel →
      ∀ c, getChildOfTypeGo check l = some c → msize c ≤ msizeList l := by
  intro fuel
  induction fuel with
  | zero =>
    intro l hl c hc
    cases l with
    | nil => simp [getChildOfTypeGo] at hc
    | cons h t =>
      exfalso
      have := msize_pos h
      simp [msizeList] at hl
      omega
  | succ k ih =>
    intro l hl c hc
    cases l with
    | nil => simp [getChildOfTypeGo] at hc
    | cons h t =>
      rw [getChildOfTypeGo] at hc
      simp [msizeList] at hl ⊢
      by_cases hch : check h
      · simp [hch] at hc
        subst hc
        omega
      · simp [hch] at hc
        rcases hrec : getChildOfTypeGo check (children h) with _ | r
        · rw [hrec] at hc
          simp at hc
          have hle : msizeList t ≤ k := by
            have := msize_pos h
            omega
          have := ih t hle c hc
          omega
        · rw [hrec] at hc
          simp at hc
          subst hc
          have hcs : msizeList (children h) ≤ k := by
            have := msizeList_children_lt h
            omega
          have := ih (children h) hcs r hrec
          have := msizeList_children_lt h
          omega

theorem getChildOfType_msize (check : Node → Bool) (n c : Node)
    (h : getChildOfType check n = some c) : msize c < msize n := by
  have h1 := getChildOfTypeGo_msize check (msizeList (children n)) (children n)
      (Nat.le_refl _) c h
  have h2 := msizeList_children_lt n
  omega

/-- `TransformerConfig`: the one recognized option, `customPrefix`
(default `"__"` is applied at use sites via `?? DEFAULT_PREFIX`). -/
structure TransformerConfig where
  customPrefix : Option String
deriving DecidableEq, Repr

/-- `DEFAULT_PREFIX` of transformer.ts. -/
def DEFAULT_PREFIX : String := "__"

/-- `SETTER_PREFIX` of transformer.ts. -/
def SETTER_PREFIX : String := "set"

/-- `GETTER_PREFIX` of transformer.ts. -/
def GETTER_PREFIX : String := "get"

/-- A fatal diagnostic: `writeLine(...)` followed by `process.exit(1)`.  Each
constructor carries the nodes whose `getText()` the printed message quotes:
`requiredGetterCompound access node` is "Required getter declaration of
`access` for compound assignment: `node`", `newExpressionCompound node` is
"Cannot compile a compound assignment with a new expression inside: `node`"
with the suggestion to extract the new expression into a variable, and the
postfix constructors are the analogous messages of
`visitPostfixUnaryExpression`. -/
inductive Diag where
  | requiredGetterCompound (access node : Node)
  | newExpressionCompound (node : Node)
  | requiredGetterPostfix (access node : Node)
  | newExpressionPostfix (node : Node)
deriving DecidableEq

/-- The `isSetter` test of `visitPropertyAccessExpression` (transformer.ts
lines 59-67): a setter declaration resolves, an assignment-class ancestor is
found through transparent wrappers by `getAncestorOfType(node,
ts.isAssignmentExpression)`, and the node is, or is contained in, that
assignment's left-hand side. -/
def inWritePosition (res : Resolution) (node : Node) (path : List Node) : Bool :=
  res.setter.isSome &&
    match getAncestorOfType isAssignmentExpressionB node path with
    | some a => decide (a.getLeft = node) || isChildOfNode a.getLeft node
    | none => false

mutual

/-- `context.transform(node)`, that is `ts.visitEachChild(node, visitNode,
context)`: visit every child with `visitNode` and rebuild the node; the first
failing child aborts (in the source, `process.exit` never returns).  `path`
is the chain of ancestors of `node` in the original tree; the children are
visited with `node` prepended, mirroring their `parent` pointers. -/
def transformChildren (cfg : TransformerConfig) (path : List Node) (n : Node) :
    Except Diag Node :=
  match n with
  | .identifier s => .ok (.identifier s)
  | .numericLiteral v => .ok (.numericLiteral v)
  | .propertyAccess e name q res =>
    match visitNode cfg (n :: path) e with
    | .error d => .error d
    | .ok e2 => .ok (.propertyAccess e2 name q res)
  | .binary l op r =>
    match visitNode cfg (n :: path) l with
    | .error d => .error d
    | .ok l2 =>
      match visitNode cfg (n :: path) r with
      | .error d => .error d
      | .ok r2 => .ok (.binary l2 op r2)
  | .postfixUnary e op =>
    match visitNode cfg (n :: path) e with
    | .error d => .error d
    | .ok e2 => .ok (.postfixUnary e2 op)
  | .paren e =>
    match visitNode cfg (n :: path) e with
    | .error d => .error d
    | .ok e2 => .ok (.paren e2)
  | .asExpr e =>
    match visitNode cfg (n :: path) e with
    | .error d => .error d
    | .ok e2 => .ok (.asExpr e2)
  | .newExpr c args =>
    match visitNode cfg (n :: path) c with
    | .error d => .error d
    | .ok c2 =>
      match visitList cfg (n :: path) args with
      | .error d => .error d
      | .ok args2 => .ok (.newExpr c2 args2)
  | .call c chain q args =>
    match visitNode cfg (n :: path) c with
    | .error d => .error d
    | .ok c2 =>
      match visitList cfg (n :: path) args with
      | .error d => .error d
      | .ok args2 => .ok (.call c2 chain q args2)
  | .elementAccess e i =>
    match visitNode cfg (n :: path) e with
    | .error d => .error d
    | .ok e2 =>
      match visitNode cfg (n :: path) i with
      | .error d => .error d
      | .ok i2 => .ok (.elementAccess e2 i2)
  | .getAccessorDecl mods name params body =>
    match visitList cfg (n :: path) params with
    | .error d => .error d
    | .ok params2 =>
      match visitList cfg (n :: path) body with
      | .error d => .error d
      | .ok body2 => .ok (.getAccessorDecl mods name params2 body2)
  | .setAccessorDecl mods name params body =>
    match visitList cfg (n :: path) params with
    | .error d => .error d
    | .ok params2 =>
      match visitList cfg (n :: path) body with
      | .error d => .error d
      | .ok body2 => .ok (.setAccessorDecl mods name params2 body2)
  | .methodDecl mods name params body =>
    match visitList cfg (n :: path) params with
    | .error d => .error d
    | .ok params2 =>
      match visitList cfg (n :: path) body with
      | .error d => .error d
      | .ok body2 => .ok (.methodDecl mods name params2 body2)
  | .parameter name init =>
    match visitList cfg (n :: path) init with
    | .error d => .error d
    | .ok init2 => .ok (.parameter name init2)
  | .exprStatement e =>
    match visitNode cfg (n :: path) e with
    | .error d => .error d
    | .ok e2 => .ok (.exprStatement e2)
  | .block ss =>
    match visitList cfg (n :: path) ss with
    | .error d => .error d
    | .ok ss2 => .ok (.block ss2)
  | .classDecl name ms =>
    match visitList cfg (n :: path) ms with
    | .error d => .error d
    | .ok ms2 => .ok (.classDecl name ms2)
  | .sourceFile ss =>
    match visitList cfg (n :: path) ss with
    | .error d => .error d
    | .ok ss2 => .ok (.sourceFile ss2)
termination_by (msize n, 2)
decreasing_by
  all_goals simp_wf
  all_goals simp [Prod.lex_def, msize, msizeList, msizeList_append]
  all_goals try omega

/-- Visit every node of a list with `visitNode` (the iteration
`ts.visitEachChild` performs over a node array). -/
def visitList (cfg : TransformerConfig) (path : List Node) (l : NodeList) :
    Except Diag NodeList :=
  match l with
  | .nil => .ok .nil
  | .cons h t =>
    match visitNode cfg path h with
    | .error d => .error d
    | .ok h2 =>
      match visitList cfg path t with
      | .error d => .error d
      | .ok t2 => .ok (.cons h2 t2)
termination_by (msizeList l, 6)
decreasing_by
  all_goals simp_wf
  all_goals rename_i hhead
  all_goals have hp := msize_pos hhead
  all_goals simp [Prod.lex_def, msize, msizeList]
  all_goals try omega

/-- `visitPropertyAccessExpression` of transformer.ts (lines 41-91).  The
oracle call `getGetterSetterDeclarations(program, node)` is the `res` field
cached on the node; the `isFromNodeModules` guard, the `isSetter` test and the
two factory results mirror the source.  `updatePropertyAccessExpression` with
a freshly created identifier always builds a new access node carrying the
original `questionDotToken`, and `createCallChain` builds an optional-chain
call with the access's `questionDotToken`. -/
def visitPropertyAccessExpression (cfg : TransformerConfig) (path : List Node)
    (n : Node) : Except Diag Node :=
  match hn : n with
  | .propertyAccess _ name questionDot res =>
    if res.getter = some true ∨ res.setter = some true then
      transformChildren cfg path n
    else if inWritePosition res n path = false then
      match transformChildren cfg path n with
      | .error d => .error d
      | .ok tn =>
        .ok (.call (.propertyAccess tn.getExpression
              (cfg.customPrefix.getD DEFAULT_PREFIX ++ GETTER_PREFIX ++ name)
              questionDot noRes) true questionDot .nil)
    else
      match transformChildren cfg path n with
      | .error d => .error d
      | .ok tn =>
        .ok (.propertyAccess tn.getExpression
              (cfg.customPrefix.getD DEFAULT_PREFIX ++ SETTER_PREFIX ++ name)
              questionDot noRes)
  | _ => transformChildren cfg path n
termination_by (msize n, 3)
decreasing_by
  all_goals simp_wf
  all_goals try subst hn
  all_goals simp [Prod.lex_def, msize]
  all_goals try omega

/-- `visitBinaryExpression` of transformer.ts (lines 120-203): find the first
property-access descendant, pass through when its setter comes from
node_modules, rewrite `=` to a setter call, rewrite a compound assignment to
`setter(getter() op right)` after the missing-getter and new-expression
checks, and otherwise keep transforming children. -/
def visitBinaryExpression (cfg : TransformerConfig) (path : List Node)
    (n : Node) : Except Diag Node :=
  match hn : n with
  | .binary _ op _ =>
    match hpa : getChildOfType isPropertyAccessExpressionB n with
    | none => transformChildren cfg path n
    | some pa =>
      if pa.resolutionOf.setter = some true then
        transformChildren cfg path n
      else if op = .equalsToken then
        match transformChildren cfg path pa with
        | .error d => .error d
        | .ok tpa =>
          match transformChildren cfg path n with
          | .error d => .error d
          | .ok tn =>
            .ok (.call (.propertyAccess tpa.getExpression
                  (cfg.customPrefix.getD DEFAULT_PREFIX ++ SETTER_PREFIX
                    ++ pa.accessName) false noRes) false false
                  (.cons tn.getRight .nil))
      else if isAssignmentExpressionB n ∧ isCompoundAssignment op then
        if pa.resolutionOf.getter = none then
          .error (.requiredGetterCompound pa n)
        else if 0 < (getDescendantsOfType isNewExpressionB pa).length then
          .error (.newExpressionCompound n)
        else
          match transformChildren cfg path pa with
          | .error d => .error d
          | .ok t1 =>
            match transformChildren cfg path pa with
            | .error d => .error d
            | .ok t2 =>
              match transformChildren cfg path n with
              | .error d => .error d
              | .ok tn =>
                .ok (.call (.propertyAccess t1.getExpression
                      (cfg.customPrefix.getD DEFAULT_PREFIX ++ SETTER_PREFIX
                        ++ pa.accessName) false noRes) false false
                      (.cons (.binary
                        (.call (.propertyAccess t2.getExpression
                          (cfg.customPrefix.getD DEFAULT_PREFIX ++ GETTER_PREFIX
                            ++ pa.accessName) false noRes) false false .nil)
                        (assignmentTokenLookup op) tn.getRight) .nil))
      else transformChildren cfg path n
  | _ => transformChildren cfg path n
termination_by (msize n, 3)
decreasing_by
  all_goals simp_wf
  all_goals try subst hn
  all_goals try have hlt := getChildOfType_msize _ _ _ (by assumption)
  all_goals simp [Prod.lex_def]
  all_goals try omega

/-- `visitPostfixUnaryExpression` of transformer.ts (lines 213-277): like the
compound-assignment rewrite with operand `1`, except that the target
expression of the synthesized pair is the original `original.expression`,
taken untransformed. -/
def visitPostfixUnaryExpression (cfg : TransformerConfig) (path : List Node)
    (n : Node) : Except Diag Node :=
  match hn : n with
  | .postfixUnary _ pop =>
    match hpa : getChildOfType isPropertyAccessExpressionB n with
    | none => transformChildren cfg path n
    | some pa =>
      if pa.resolutionOf.setter = some true then
        transformChildren cfg path n
      else if pa.resolutionOf.getter = none then
        .error (.requiredGetterPostfix pa n)
      else if 0 < (getDescendantsOfType isNewExpressionB pa).length then
        .error (.newExpressionPostfix n)
      else
        .ok (.call (.propertyAccess pa.getExpression
              (cfg.customPrefix.getD DEFAULT_PREFIX ++ SETTER_PREFIX
                ++ pa.accessName) false noRes) false false
              (.cons (.binary
                (.call (.propertyAccess pa.getExpression
                  (cfg.customPrefix.getD DEFAULT_PREFIX ++ GETTER_PREFIX
                    ++ pa.accessName) false noRes) false false .nil)
                (postfixUnaryOperatorLookup pop) (.numericLiteral 1)) .nil))
  | _ => transformChildren cfg path n
termination_by (msize n, 3)
decreasing_by
  all_goals simp_wf
  all_goals try subst hn
  all_goals simp [Prod.lex_def, msize]
  all_goals try omega

/-- `visitSetAccessor` of transformer.ts (lines 279-298):
`context.transform(factory.createMethodDeclaration(node.modifiers, ...,
prefix+set+name, ..., node.parameters, ..., node.body))`; the
`visitEachChild` over the freshly built method declaration is inlined (it
visits the parameter list and the body). -/
def visitSetAccessor (cfg : TransformerConfig) (path : List Node) (n : Node) :
    Except Diag Node :=
  match hn : n with
  | .setAccessorDecl mods name params body =>
    let m : Node := .methodDecl mods
      (cfg.customPrefix.getD DEFAULT_PREFIX ++ SETTER_PREFIX ++ name)
      params body
    match visitList cfg (m :: path) params with
    | .error d => .error d
    | .ok params2 =>
      match visitList cfg (m :: path) body with
      | .error d => .error d
      | .ok body2 =>
        .ok (.methodDecl mods
          (cfg.customPrefix.getD DEFAULT_PREFIX ++ SETTER_PREFIX ++ name)
          params2 body2)
  | _ => transformChildren cfg path n
termination_by (msize n, 3)
decreasing_by
  all_goals simp_wf
  all_goals try subst hn
  all_goals simp [Prod.lex_def, msize, msizeList]
  all_goals try omega

/-- `visitGetAccessor` of transformer.ts (lines 300-319), the getter analogue
of `visitSetAccessor`. -/
def visitGetAccessor (cfg : TransformerConfig) (path : List Node) (n : Node) :
    Except Diag Node :=
  match hn : n with
  | .getAccessorDecl mods name params body =>
    let m : Node := .methodDecl mods
      (cfg.customPrefix.getD DEFAULT_PREFIX ++ GETTER_PREFIX ++ name)
      params body
    match visitList cfg (m :: path) params with
    | .error d => .error d
    | .ok params2 =>
      match visitList cfg (m :: path) body with
      | .error d => .error d
      | .ok body2 =>
        .ok (.methodDecl mods
          (cfg.customPrefix.getD DEFAULT_PREFIX ++ GETTER_PREFIX ++ name)
          params2 body2)
  | _ => transformChildren cfg path n
termination_by (msize n, 3)
decreasing_by
  all_goals simp_wf
  all_goals try subst hn
  all_goals simp [Prod.lex_def, msize, msizeList]
  all_goals try omega

/-- `visitExpression` of transformer.ts (lines 321-335). -/
def visitExpression (cfg : TransformerConfig) (path : List Node) (n : Node) :
    Except Diag Node :=
  match hn : n with
  | .propertyAccess _ _ _ _ => visitPropertyAccessExpression cfg path n
  | .binary _ _ _ => visitBinaryExpression cfg path n
  | .postfixUnary _ _ => visitPostfixUnaryExpression cfg path n
  | _ => transformChildren cfg path n
termination_by (msize n, 4)
decreasing_by
  all_goals simp_wf
  all_goals try subst hn
  all_goals simp [Prod.lex_def, msize]
  all_goals try omega

/-- `visitNode` of transformer.ts (lines 337-354), the dispatcher of the
single depth-first traversal. -/
def visitNode (cfg : TransformerConfig) (path : List Node) (n : Node) :
    Except Diag Node :=
  match hn : n with
  | .getAccessorDecl _ _ _ _ => visitGetAccessor cfg path n
  | .setAccessorDecl _ _ _ _ => visitSetAccessor cfg path n
  | _ =>
    if isExpressionB n then visitExpression cfg path n
    else transformChildren cfg path n
termination_by (msize n, 5)
decreasing_by
  all_goals simp_wf
  all_goals try subst hn
  all_goals simp [Prod.lex_def, msize]
  all_goals try omega

end

/-- One run of the pass over a root node (the transformer entry applies
`context.transform` from the root; `visitNode` on a source file reduces to
exactly that). -/
def runPass (cfg : TransformerConfig) (root : Node) : Except Diag Node :=
  visitNode cfg [] root

/-- Runtime value of an expression at the compilation target, for the fragment
the claims need: an identifier or literal has its environment value, an
assignment expression evaluates to its right-hand side's value (TypeScript
semantics), and a method call `target.m(...)` evaluates to the value the
method `m` returns, given by the environment `mr`.  Other expressions are not
needed and evaluate to `0`. -/
def evalExpr (mr vv : String → Int) : Node → Int
  | .identifier x => vv x
  | .numericLiteral k => (k : Int)
  | .paren e => evalExpr mr vv e
  | .binary _ .equalsToken r => evalExpr mr vv r
  | .call (.propertyAccess _ m _ _) _ _ _ => mr m
  | _ => 0

theorem isAssignmentOperator_of_compound (op : BinOp)
    (h : isCompoundAssignment op = true) : isAssignmentOperator op = true := by
  cases op <;> simp_all [isCompoundAssignment, isAssignmentOperator]

theorem ne_equalsToken_of_compound (op : BinOp)
    (h : isCompoundAssignment op = true) : ¬op = BinOp.equalsToken := by
  intro he
  subst he
  simp [isCompoundAssignment] at h

theorem getChildOfType_binary (l : Node) (op : BinOp) (r : Node)
    (h : isPropertyAccessExpressionB l = true) :
    getChildOfType isPropertyAccessExpressionB (.binary l op r) = some l := by
  rw [getChildOfType, children, getChildOfTypeGo]
  simp [h]

theorem getChildOfType_postfixUnary (e : Node) (pop : PostfixOp)
    (h : isPropertyAccessExpressionB e = true) :
    getChildOfType isPropertyAccessExpressionB (.postfixUnary e pop) = some e := by
  rw [getChildOfType, children, getChildOfTypeGo]
  simp [h]

theorem getAncestorOfType_matches (check : Node → Bool) :
    ∀ (path : List Node) (node a : Node),
      getAncestorOfType check node path = some a → check a = true := by
  intro path
  induction path with
  | nil =>
    intro node a h
    simp [getAncestorOfType] at h
  | cons p rest ih =>
    intro node a h
    rw [getAncestorOfType] at h
    split at h
    · rename_i hc
      cases h
      exact hc
    · split at h
      · exact ih p a h
      · cases h

/-- C6: a member-access node in read position whose resolution has a getter or
a setter, neither excluded by node_modules provenance, is rewritten to a call
of the synthesized getter method named `prefix ++ "get" ++ name` on the
recursively transformed target expression, with the access's
optional-chaining `?.` token preserved on the rebuilt access and on the
synthesized call chain. -/
theorem c6_read_position_getter_call (cfg : TransformerConfig)
    (path : List Node) (target t2 : Node) (name : String) (q : Bool)
    (g s : Option Bool)
    (hres : g.isSome = true ∨ s.isSome = true)
    (hg : g ≠ some true) (hs : s ≠ some true)
    (hread : inWritePosition ⟨g, s⟩ (.propertyAccess target name q ⟨g, s⟩) path
      = false)
    (ht : visitNode cfg (Node.propertyAccess target name q ⟨g, s⟩ :: path) target
      = .ok t2) :
    visitPropertyAccessExpression cfg path (.propertyAccess target name q ⟨g, s⟩)
      = .ok (.call (.propertyAccess t2
          (cfg.customPrefix.getD DEFAULT_PREFIX ++ GETTER_PREFIX ++ name) q noRes)
          true q .nil) := by
  rw [visitPropertyAccessExpression]
  simp [hg, hs, hread, transformChildren, ht, Node.getExpression]

/-- C6 witness: `a?.value` with both accessors resolving locally, in read
position, becomes the call chain `a?.__getvalue?.()` (default prefix `"__"`),
with the `?.` of the original access preserved. -/
theorem c6_read_position_getter_call_witness :
    visitPropertyAccessExpression ⟨none⟩ []
      (.propertyAccess (.identifier "a") "value" true ⟨some false, some false⟩)
      = .ok (.call (.propertyAccess (.identifier "a") "__getvalue" true noRes)
          true true .nil) := by
  have h := c6_read_position_getter_call ⟨none⟩ [] (.identifier "a")
    (.identifier "a") "value" true (some false) (some false)
    (Or.inl rfl) (by decide) (by decide)
    (by simp [inWritePosition, getAncestorOfType])
    (by simp [visitNode, isExpressionB, visitExpression, transformChildren])
  simpa using h

/-- C3: a compound assignment whose left-hand side is a member access
resolving to both a getter and a setter (local provenance), with no
construction expression inside the access, is rewritten to
`target.<setter>(target.<getter>() <op> rhs)`: the same transformed target
expression `t.getExpression` feeds both the synthesized setter call and the
synthesized getter call (the target is transformed once, not once per call),
the operator is `assignmentTokenLookup op`, the non-assignment counterpart of
the compound operator, and the sole argument combines the getter call with the
transformed right-hand side. -/
theorem c3_compound_assignment_rewrite (cfg : TransformerConfig)
    (path : List Node) (target rhs t tn : Node) (name : String) (q : Bool)
    (op : BinOp)
    (hop : isCompoundAssignment op = true)
    (hnew : (getDescendantsOfType isNewExpressionB
      (.propertyAccess target name q ⟨some false, some false⟩)).length = 0)
    (ht : transformChildren cfg path
      (.propertyAccess target name q ⟨some false, some false⟩) = .ok t)
    (htn : transformChildren cfg path
      (.binary (.propertyAccess target name q ⟨some false, some false⟩) op rhs)
      = .ok tn) :
    visitBinaryExpression cfg path
      (.binary (.propertyAccess target name q ⟨some false, some false⟩) op rhs)
      = .ok (.call (.propertyAccess t.getExpression
          (cfg.customPrefix.getD DEFAULT_PREFIX ++ SETTER_PREFIX ++ name)
          false noRes) false false
          (.cons (.binary
            (.call (.propertyAccess t.getExpression
              (cfg.customPrefix.getD DEFAULT_PREFIX ++ GETTER_PREFIX ++ name)
              false noRes) false false .nil)
            (assignmentTokenLookup op) tn.getRight) .nil)) := by
  have hpa := getChildOfType_binary
    (.propertyAccess target name q ⟨some false, some false⟩) op rhs
    (by simp [isPropertyAccessExpressionB])
  have hne := ne_equalsToken_of_compound op hop
  have hao := isAssignmentOperator_of_compound op hop
  rw [visitBinaryExpression]
  split
  · rename_i hcontra
    simp [hpa] at hcontra
  · rename_i pa2 hsome
    rw [hpa] at hsome
    injection hsome with hpaeq
    subst hpaeq
    simp [Node.resolutionOf, hne, isAssignmentExpressionB, hao,
      isLeftHandSideExpressionB, hop, hnew, ht, htn, Node.accessName]

/-- C3 witness: `a.value += 1` with getter and setter both resolving locally
becomes `a.__setvalue(a.__getvalue() + 1)`, the two synthesized calls sharing
the target `a`. -/
theorem c3_compound_assignment_rewrite_witness :
    visitBinaryExpression ⟨none⟩ []
      (.binary (.propertyAccess (.identifier "a") "value" false
        ⟨some false, some false⟩) .plusEqualsToken (.numericLiteral 1))
      = .ok (.call (.propertyAccess (.identifier "a") "__setvalue" false noRes)
          false false
          (.cons (.binary
            (.call (.propertyAccess (.identifier "a") "__getvalue" false noRes)
              false false .nil)
            .plusToken (.numericLiteral 1)) .nil)) := by
  have h := c3_compound_assignment_rewrite ⟨none⟩ [] (.identifier "a")
    (.numericLiteral 1)
    (.propertyAccess (.identifier "a") "value" false ⟨some false, some false⟩)
    (.binary (.propertyAccess (.identifier "a") "__setvalue" false noRes)
      .plusEqualsToken (.numericLiteral 1))
    "value" false .plusEqualsToken
    (by decide)
    (by rw [getDescendantsOfType, children, getDescendantsOfTypeGo]
        simp [isNewExpressionB, getDescendantsOfTypeGo, children,
          NodeList.append, NodeList.length])
    (by simp [transformChildren, visitNode, isExpressionB, visitExpression])
    (by simp [transformChildren, visitNode, isExpressionB, visitExpression,
          visitPropertyAccessExpression, inWritePosition, getAncestorOfType,
          isAssignmentExpressionB, isAssignmentOperator,
          isLeftHandSideExpressionB, isAsOrParen, Node.getLeft,
          isChildOfNode, Node.getExpression, DEFAULT_PREFIX, SETTER_PREFIX])
  simpa [Node.getExpression, Node.getRight, assignmentTokenLookup,
    DEFAULT_PREFIX, SETTER_PREFIX, GETTER_PREFIX] using h

/-- C4: a compound assignment, or a postfix increment or decrement, whose
accessed member resolves to a setter (local provenance) but to no getter is a
fatal condition: the visit returns the missing-getter diagnostic, which names
the offending property-access sub-expression and the containing expression,
instead of a rewritten node; and run over a whole source file the same
diagnostic is the result of the entire pass — the error propagates to the
root, so no partial output exists. -/
theorem c4_missing_getter_fatal (cfg : TransformerConfig) (path : List Node)
    (target rhs : Node) (name : String) (q : Bool) (op : BinOp)
    (pop : PostfixOp)
    (hop : isCompoundAssignment op = true) :
    visitBinaryExpression cfg path
      (.binary (.propertyAccess target name q ⟨none, some false⟩) op rhs)
      = .error (.requiredGetterCompound
          (.propertyAccess target name q ⟨none, some false⟩)
          (.binary (.propertyAccess target name q ⟨none, some false⟩) op rhs))
  ∧ visitPostfixUnaryExpression cfg path
      (.postfixUnary (.propertyAccess target name q ⟨none, some false⟩) pop)
      = .error (.requiredGetterPostfix
          (.propertyAccess target name q ⟨none, some false⟩)
          (.postfixUnary (.propertyAccess target name q ⟨none, some false⟩) pop))
  ∧ runPass cfg (.sourceFile (.cons (.exprStatement
      (.postfixUnary (.propertyAccess target name q ⟨none, some false⟩) pop))
      .nil))
      = .error (.requiredGetterPostfix
          (.propertyAccess target name q ⟨none, some false⟩)
          (.postfixUnary (.propertyAccess target name q ⟨none, some false⟩) pop)) := by
  have hne := ne_equalsToken_of_compound op hop
  have hao := isAssignmentOperator_of_compound op hop
  have hbin : ∀ p : List Node, visitBinaryExpression cfg p
      (.binary (.propertyAccess target name q ⟨none, some false⟩) op rhs)
      = .error (.requiredGetterCompound
          (.propertyAccess target name q ⟨none, some false⟩)
          (.binary (.propertyAccess target name q ⟨none, some false⟩) op rhs)) := by
    intro p
    have hpa := getChildOfType_binary
      (.propertyAccess target name q ⟨none, some false⟩) op rhs
      (by simp [isPropertyAccessExpressionB])
    rw [visitBinaryExpression]
    split
    · rename_i hcontra
      simp [hpa] at hcontra
    · rename_i pa2 hsome
      rw [hpa] at hsome
      injection hsome with hpaeq
      subst hpaeq
      simp [Node.resolutionOf, hne, isAssignmentExpressionB, hao,
        isLeftHandSideExpressionB, hop]
  have hpost : ∀ p : List Node, visitPostfixUnaryExpression cfg p
      (.postfixUnary (.propertyAccess target name q ⟨none, some false⟩) pop)
      = .error (.requiredGetterPostfix
          (.propertyAccess target name q ⟨none, some false⟩)
          (.postfixUnary (.propertyAccess target name q ⟨none, some false⟩) pop)) := by
    intro p
    have hpa := getChildOfType_postfixUnary
      (.propertyAccess target name q ⟨none, some false⟩) pop
      (by simp [isPropertyAccessExpressionB])
    rw [visitPostfixUnaryExpression]
    split
    · rename_i hcontra
      simp [hpa] at hcontra
    · rename_i pa2 hsome
      rw [hpa] at hsome
      injection hsome with hpaeq
      subst hpaeq
      simp [Node.resolutionOf]
  refine ⟨hbin path, hpost path, ?_⟩
  simp [runPass, visitNode, isExpressionB, transformChildren, visitList,
    visitExpression, hpost]

/-- C4 witness: for the setter-only member `x`, the statement `b.x++` makes
the whole run abort with the missing-getter diagnostic naming `b.x` and
`b.x++`. -/
theorem c4_missing_getter_fatal_witness :
    runPass ⟨none⟩ (.sourceFile (.cons (.exprStatement
      (.postfixUnary (.propertyAccess (.identifier "b") "x" false
        ⟨none, some false⟩) .plusPlusToken)) .nil))
      = .error (.requiredGetterPostfix
          (.propertyAccess (.identifier "b") "x" false ⟨none, some false⟩)
          (.postfixUnary (.propertyAccess (.identifier "b") "x" false
            ⟨none, some false⟩) .plusPlusToken)) :=
  (c4_missing_getter_fatal ⟨none⟩ [] (.identifier "b") (.numericLiteral 1)
    "x" false .plusEqualsToken .plusPlusToken (by decide)).2.2

/-- C5: a compound assignment, or a postfix increment or decrement, whose
accessed member resolves to getter and setter but whose access sub-tree
contains a construction (`new`) expression is a fatal condition: the visit
returns the duplicate-evaluation diagnostic (whose printed message recommends
extracting the construction into a variable) instead of a rewrite that would
evaluate the construction twice; run over a whole source file, the same
diagnostic is the result of the entire pass. -/
theorem c5_new_expression_fatal (cfg : TransformerConfig) (path : List Node)
    (target rhs : Node) (name : String) (q : Bool) (op : BinOp)
    (pop : PostfixOp)
    (hop : isCompoundAssignment op = true)
    (hnew : 0 < (getDescendantsOfType isNewExpressionB
      (.propertyAccess target name q ⟨some false, some false⟩)).length) :
    visitBinaryExpression cfg path
      (.binary (.propertyAccess target name q ⟨some false, some false⟩) op rhs)
      = .error (.newExpressionCompound
          (.binary (.propertyAccess target name q ⟨some false, some false⟩) op rhs))
  ∧ visitPostfixUnaryExpression cfg path
      (.postfixUnary (.propertyAccess target name q ⟨some false, some false⟩) pop)
      = .error (.newExpressionPostfix
          (.postfixUnary (.propertyAccess target name q ⟨some false, some false⟩) pop))
  ∧ runPass cfg (.sourceFile (.cons (.exprStatement
      (.binary (.propertyAccess target name q ⟨some false, some false⟩) op rhs))
      .nil))
      = .error (.newExpressionCompound
          (.binary (.propertyAccess target name q ⟨some false, some false⟩) op rhs)) := by
  have hne := ne_equalsToken_of_compound op hop
  have hao := isAssignmentOperator_of_compound op hop
  have hbin : ∀ p : List Node, visitBinaryExpression cfg p
      (.binary (.propertyAccess target name q ⟨some false, some false⟩) op rhs)
      = .error (.newExpressionCompound
          (.binary (.propertyAccess target name q ⟨some false, some false⟩) op rhs)) := by
    intro p
    have hpa := getChildOfType_binary
      (.propertyAccess target name q ⟨some false, some false⟩) op rhs
      (by simp [isPropertyAccessExpressionB])
    rw [visitBinaryExpression]
    split
    · rename_i hcontra
      simp [hpa] at hcontra
    · rename_i pa2 hsome
      rw [hpa] at hsome
      injection hsome with hpaeq
      subst hpaeq
      simp [Node.resolutionOf, hne, isAssignmentExpressionB, hao,
        isLeftHandSideExpressionB, hop, hnew]
  have hpost : visitPostfixUnaryExpression cfg path
      (.postfixUnary (.propertyAccess target name q ⟨some false, some false⟩) pop)
      = .error (.newExpressionPostfix
          (.postfixUnary (.propertyAccess target name q ⟨some false, some false⟩) pop)) := by
    have hpa := getChildOfType_postfixUnary
      (.propertyAccess target name q ⟨some false, some false⟩) pop
      (by simp [isPropertyAccessExpressionB])
    rw [visitPostfixUnaryExpression]
    split
    · rename_i hcontra
      simp [hpa] at hcontra
    · rename_i pa2 hsome
      rw [hpa] at hsome
      injection hsome with hpaeq
      subst hpaeq
      simp [Node.resolutionOf, hnew]
  refine ⟨hbin path, hpost, ?_⟩
  simp [runPass, visitNode, isExpressionB, transformChildren, visitList,
    visitExpression, hbin]

/-- C5 witness: `(new Widget()).y += 1` with getter and setter resolving makes
the whole run abort with the duplicate-evaluation diagnostic. -/
theorem c5_new_expression_fatal_witness :
    runPass ⟨none⟩ (.sourceFile (.cons (.exprStatement
      (.binary (.propertyAccess (.paren (.newExpr (.identifier "Widget") .nil))
        "y" false ⟨some false, some false⟩) .plusEqualsToken
        (.numericLiteral 1))) .nil))
      = .error (.newExpressionCompound
          (.binary (.propertyAccess (.paren (.newExpr (.identifier "Widget") .nil))
            "y" false ⟨some false, some false⟩) .plusEqualsToken
            (.numericLiteral 1))) :=
  (c5_new_expression_fatal ⟨none⟩ [] (.paren (.newExpr (.identifier "Widget") .nil))
    (.numericLiteral 1) "y" false .plusEqualsToken .plusPlusToken (by decide)
    (by rw [getDescendantsOfType, children, getDescendantsOfTypeGo]
        simp [isNewExpressionB, getDescendantsOfTypeGo, children,
          NodeList.append, NodeList.length])).2.2

/-- C1 (code bug): with no resolvable accessor at all (`noRes`), the pass does
not leave the member access alone.  `visitPropertyAccessExpression` still
synthesizes a getter call (`a.b` becomes `a.__getb()`, a different node), and
`visitPostfixUnaryExpression` on `obj.count++` hits the missing-getter fatal
instead of passing through silently. -/
theorem c1_unresolved_access_not_left_alone :
    visitPropertyAccessExpression ⟨none⟩ []
      (.propertyAccess (.identifier "a") "b" false noRes)
      = .ok (.call (.propertyAccess (.identifier "a") "__getb" false noRes)
          true false .nil)
  ∧ Node.call (.propertyAccess (.identifier "a") "__getb" false noRes)
      true false .nil
      ≠ .propertyAccess (.identifier "a") "b" false noRes
  ∧ visitPostfixUnaryExpression ⟨none⟩ []
      (.postfixUnary (.propertyAccess (.identifier "obj") "count" false noRes)
        .plusPlusToken)
      = .error (.requiredGetterPostfix
          (.propertyAccess (.identifier "obj") "count" false noRes)
          (.postfixUnary (.propertyAccess (.identifier "obj") "count" false noRes)
            .plusPlusToken)) := by
  refine ⟨?_, by decide, ?_⟩
  · simp [visitPropertyAccessExpression, transformChildren, visitNode,
      visitExpression, inWritePosition, getAncestorOfType, noRes,
      Node.getExpression, DEFAULT_PREFIX, GETTER_PREFIX, isExpressionB]
  · have hpa := getChildOfType_postfixUnary
      (.propertyAccess (.identifier "obj") "count" false noRes) .plusPlusToken
      (by simp [isPropertyAccessExpressionB])
    rw [visitPostfixUnaryExpression]
    split
    · rename_i hcontra
      simp [hpa] at hcontra
    · rename_i pa2 hsome
      rw [hpa] at hsome
      injection hsome with hpaeq
      subst hpaeq
      simp [Node.resolutionOf, noRes]

/-- C2 (code bug): a plain assignment is rewritten into a setter call even
when the accessed member resolves to a getter only (no setter declaration at
all): `a.b = 5` with resolution `⟨some false, none⟩` still becomes
`a.__setb(5)`, so the rewrite is not gated on setter presence. -/
theorem c2_plain_assignment_not_gated_on_setter :
    (Resolution.mk (some false) none).setter = none
  ∧ visitBinaryExpression ⟨none⟩ []
      (.binary (.propertyAccess (.identifier "a") "b" false ⟨some false, none⟩)
        .equalsToken (.numericLiteral 5))
      = .ok (.call (.propertyAccess (.identifier "a") "__setb" false noRes)
          false false (.cons (.numericLiteral 5) .nil)) := by
  refine ⟨rfl, ?_⟩
  have hpa := getChildOfType_binary
    (.propertyAccess (.identifier "a") "b" false ⟨some false, none⟩)
    .equalsToken (.numericLiteral 5)
    (by simp [isPropertyAccessExpressionB])
  rw [visitBinaryExpression]
  split
  · rename_i hcontra
    simp [hpa] at hcontra
  · rename_i pa2 hsome
    rw [hpa] at hsome
    injection hsome with hpaeq
    subst hpaeq
    simp [Node.resolutionOf, Node.accessName, Node.getExpression, Node.getRight,
      transformChildren, visitNode, visitExpression, isExpressionB,
      visitPropertyAccessExpression, inWritePosition, getAncestorOfType,
      noRes, DEFAULT_PREFIX, SETTER_PREFIX, GETTER_PREFIX]

/-- C9 (code bug): the pass is not idempotent.  The file holding the statement
`a.value;` (getter and setter resolving locally) rewrites to
`a.__getvalue();`; running the pass again over that output — where the
synthesized access `a.__getvalue` resolves to no accessor declaration — wraps
the access once more, yielding `a.__get__getvalue()();` instead of returning
the output unchanged. -/
theorem c9_not_idempotent :
    runPass ⟨none⟩ (.sourceFile (.cons (.exprStatement
        (.propertyAccess (.identifier "a") "value" false
          ⟨some false, some false⟩)) .nil))
      = .ok (.sourceFile (.cons (.exprStatement
        (.call (.propertyAccess (.identifier "a") "__getvalue" false noRes)
          true false .nil)) .nil))
  ∧ runPass ⟨none⟩ (.sourceFile (.cons (.exprStatement
        (.call (.propertyAccess (.identifier "a") "__getvalue" false noRes)
          true false .nil)) .nil))
      = .ok (.sourceFile (.cons (.exprStatement
        (.call (.call (.propertyAccess (.identifier "a") "__get__getvalue"
          false noRes) true false .nil) true false .nil)) .nil))
  ∧ Node.sourceFile (.cons (.exprStatement
        (.call (.call (.propertyAccess (.identifier "a") "__get__getvalue"
          false noRes) true false .nil) true false .nil)) .nil)
      ≠ .sourceFile (.cons (.exprStatement
        (.call (.propertyAccess (.identifier "a") "__getvalue" false noRes)
          true false .nil)) .nil) := by
  refine ⟨?_, ?_, by decide⟩
  · simp [runPass, visitNode, visitExpression, visitPropertyAccessExpression,
      transformChildren, visitList, inWritePosition, getAncestorOfType,
      isAsOrParen, isExpressionB, isAssignmentExpressionB, noRes,
      Node.getExpression, DEFAULT_PREFIX, GETTER_PREFIX]
  · simp [runPass, visitNode, visitExpression, visitPropertyAccessExpression,
      transformChildren, visitList, inWritePosition, getAncestorOfType,
      isAsOrParen, isExpressionB, isAssignmentExpressionB, noRes,
      Node.getExpression, DEFAULT_PREFIX, GETTER_PREFIX]

/-- C7 counterexample: inside the left-hand side of the compound assignment
`a.b += 1` (operator `+=`, not the plain `=`), `visitPropertyAccessExpression`
still renames the access to the synthesized setter name `__setb`: the
enclosing-assignment search matched, a setter resolves, and the rewrite
happened although the matched assignment does not use the plain `=`
operator — refuting the "only when ... uses the plain `=` operator" part of
the claim at this input. -/
theorem c7_counterexample_compound_write_position :
    getAncestorOfType isAssignmentExpressionB
        (.propertyAccess (.identifier "a") "b" false ⟨some false, some false⟩)
        [.binary (.propertyAccess (.identifier "a") "b" false
          ⟨some false, some false⟩) .plusEqualsToken (.numericLiteral 1)]
      = some (.binary (.propertyAccess (.identifier "a") "b" false
          ⟨some false, some false⟩) .plusEqualsToken (.numericLiteral 1))
  ∧ BinOp.plusEqualsToken ≠ BinOp.equalsToken
  ∧ visitPropertyAccessExpression ⟨none⟩
      [.binary (.propertyAccess (.identifier "a") "b" false
        ⟨some false, some false⟩) .plusEqualsToken (.numericLiteral 1)]
      (.propertyAccess (.identifier "a") "b" false ⟨some false, some false⟩)
      = .ok (.propertyAccess (.identifier "a") "__setb" false noRes) := by
  refine ⟨?_, by decide, ?_⟩
  · simp [getAncestorOfType, isAssignmentExpressionB, isAssignmentOperator,
      isLeftHandSideExpressionB]
  · simp [visitPropertyAccessExpression, inWritePosition, getAncestorOfType,
      isAssignmentExpressionB, isAssignmentOperator,
      isLeftHandSideExpressionB, Node.getLeft, transformChildren, visitNode,
      visitExpression, isExpressionB, Node.getExpression, noRes,
      DEFAULT_PREFIX, SETTER_PREFIX]

/-- C7 amended: write position is determined by ascending through transparent
wrappers (parenthesization and `as`-casts, skipped only when the node is their
direct sub-expression) to the nearest enclosing assignment-class expression
whose left-hand side is, or contains, the node; the access is rewritten to
reference the synthesized setter method name whenever such an assignment
exists with any assignment-class operator — compound operators included, the
plain `=` is not required — and a setter resolves; and the search never
matches a non-assignment binary expression, since every match satisfies
`isAssignmentExpressionB`. -/
theorem c7_amended_write_position (cfg : TransformerConfig) (path : List Node)
    (target t2 a : Node) (name : String) (q : Bool) (g : Option Bool)
    (hg : g ≠ some true)
    (ha : getAncestorOfType isAssignmentExpressionB
      (.propertyAccess target name q ⟨g, some false⟩) path = some a)
    (hleft : a.getLeft = (.propertyAccess target name q ⟨g, some false⟩)
      ∨ isChildOfNode a.getLeft
          (.propertyAccess target name q ⟨g, some false⟩) = true)
    (ht : visitNode cfg (Node.propertyAccess target name q ⟨g, some false⟩ :: path)
      target = .ok t2) :
    visitPropertyAccessExpression cfg path
      (.propertyAccess target name q ⟨g, some false⟩)
      = .ok (.propertyAccess t2
          (cfg.customPrefix.getD DEFAULT_PREFIX ++ SETTER_PREFIX ++ name)
          q noRes)
  ∧ ∀ (check : Node → Bool) (p : List Node) (node b : Node),
      getAncestorOfType check node p = some b → check b = true := by
  refine ⟨?_, fun check p node b hb => getAncestorOfType_matches check p node b hb⟩
  have hw : inWritePosition ⟨g, some false⟩
      (.propertyAccess target name q ⟨g, some false⟩) path = true := by
    rw [inWritePosition, ha]
    rcases hleft with hl | hl
    · simp [hl]
    · simp [hl]
  rw [visitPropertyAccessExpression]
  simp [hg, hw, transformChildren, ht, Node.getExpression]

/-- C7 amended witness: under `a.b += 1`, the access `a.b` with a local setter
is renamed to `a.__setb`, and every ancestor the search returns satisfies the
assignment-class predicate. -/
theorem c7_amended_write_position_witness :
    visitPropertyAccessExpression ⟨none⟩
      [.binary (.propertyAccess (.identifier "c") "d" false
        ⟨some false, some false⟩) .minusEqualsToken (.numericLiteral 2)]
      (.propertyAccess (.identifier "c") "d" false ⟨some false, some false⟩)
      = .ok (.propertyAccess (.identifier "c") "__setd" false noRes) := by
  have h := c7_amended_write_position ⟨none⟩
    [.binary (.propertyAccess (.identifier "c") "d" false
      ⟨some false, some false⟩) .minusEqualsToken (.numericLiteral 2)]
    (.identifier "c") (.identifier "c")
    (.binary (.propertyAccess (.identifier "c") "d" false
      ⟨some false, some false⟩) .minusEqualsToken (.numericLiteral 2))
    "d" false (some false)
    (by decide)
    (by simp [getAncestorOfType, isAssignmentExpressionB, isAssignmentOperator,
          isLeftHandSideExpressionB])
    (Or.inl (by simp [Node.getLeft]))
    (by simp [visitNode, isExpressionB, visitExpression, transformChildren])
  simpa [DEFAULT_PREFIX, SETTER_PREFIX] using h.1

/-- C8: a getter or setter accessor declaration is rewritten to a method
declaration named `prefix ++ "get" ++ name` or `prefix ++ "set" ++ name`,
where the prefix is the single configuration option `customPrefix` (default
`"__"`) applied uniformly to both synthesized names, the modifiers are
carried over unchanged, and the parameter list and body are carried over with
their contents still recursively transformed. -/
theorem c8_accessor_renaming (cfg : TransformerConfig) (path : List Node)
    (mods : List String) (name : String) (params body ps1 bs1 ps2 bs2 : NodeList)
    (hgp : visitList cfg (Node.methodDecl mods
      (cfg.customPrefix.getD DEFAULT_PREFIX ++ GETTER_PREFIX ++ name)
      params body :: path) params = .ok ps1)
    (hgb : visitList cfg (Node.methodDecl mods
      (cfg.customPrefix.getD DEFAULT_PREFIX ++ GETTER_PREFIX ++ name)
      params body :: path) body = .ok bs1)
    (hsp : visitList cfg (Node.methodDecl mods
      (cfg.customPrefix.getD DEFAULT_PREFIX ++ SETTER_PREFIX ++ name)
      params body :: path) params = .ok ps2)
    (hsb : visitList cfg (Node.methodDecl mods
      (cfg.customPrefix.getD DEFAULT_PREFIX ++ SETTER_PREFIX ++ name)
      params body :: path) body = .ok bs2) :
    visitGetAccessor cfg path (.getAccessorDecl mods name params body)
      = .ok (.methodDecl mods
          (cfg.customPrefix.getD DEFAULT_PREFIX ++ GETTER_PREFIX ++ name)
          ps1 bs1)
  ∧ visitSetAccessor cfg path (.setAccessorDecl mods name params body)
      = .ok (.methodDecl mods
          (cfg.customPrefix.getD DEFAULT_PREFIX ++ SETTER_PREFIX ++ name)
          ps2 bs2) := by
  constructor
  · rw [visitGetAccessor]
    simp [hgp, hgb]
  · rw [visitSetAccessor]
    simp [hsp, hsb]

/-- C8 witness: with the configured prefix `"zz"`, the public getter and
setter for `value` (empty parameter list and body here) become the methods
`zzgetvalue` and `zzsetvalue` with the modifier carried over. -/
theorem c8_accessor_renaming_witness :
    visitGetAccessor ⟨some "zz"⟩ []
      (.getAccessorDecl ["public"] "value" .nil .nil)
      = .ok (.methodDecl ["public"] "zzgetvalue" .nil .nil)
  ∧ visitSetAccessor ⟨some "zz"⟩ []
      (.setAccessorDecl ["public"] "value" .nil .nil)
      = .ok (.methodDecl ["public"] "zzsetvalue" .nil .nil) := by
  have h := c8_accessor_renaming ⟨some "zz"⟩ [] ["public"] "value"
    .nil .nil .nil .nil .nil .nil
    (by simp [visitList]) (by simp [visitList])
    (by simp [visitList]) (by simp [visitList])
  simpa [DEFAULT_PREFIX, GETTER_PREFIX, SETTER_PREFIX] using h

/-- C10: a plain assignment the pass rewrites into a setter call yields an
expression whose runtime value is the value returned by the synthesized
setter method, not the assigned right-hand-side value: the rewrite result is
the call node, its value under `evalExpr` is `mr (prefix ++ "set" ++ name)`,
and whenever the setter's return value differs from the (transformed)
right-hand side's value, the rewritten expression no longer evaluates to the
assigned value. -/
theorem c10_assignment_value_is_setter_return (cfg : TransformerConfig)
    (path : List Node) (target rhs t tn : Node) (name : String) (q : Bool)
    (g : Option Bool) (mr vv : String → Int)
    (ht : transformChildren cfg path
      (.propertyAccess target name q ⟨g, some false⟩) = .ok t)
    (htn : transformChildren cfg path
      (.binary (.propertyAccess target name q ⟨g, some false⟩)
        .equalsToken rhs) = .ok tn)
    (hne : mr (cfg.customPrefix.getD DEFAULT_PREFIX ++ SETTER_PREFIX ++ name)
      ≠ evalExpr mr vv tn.getRight) :
    visitBinaryExpression cfg path
      (.binary (.propertyAccess target name q ⟨g, some false⟩)
        .equalsToken rhs)
      = .ok (.call (.propertyAccess t.getExpression
          (cfg.customPrefix.getD DEFAULT_PREFIX ++ SETTER_PREFIX ++ name)
          false noRes) false false (.cons tn.getRight .nil))
  ∧ evalExpr mr vv (.call (.propertyAccess t.getExpression
        (cfg.customPrefix.getD DEFAULT_PREFIX ++ SETTER_PREFIX ++ name)
        false noRes) false false (.cons tn.getRight .nil))
      = mr (cfg.customPrefix.getD DEFAULT_PREFIX ++ SETTER_PREFIX ++ name)
  ∧ evalExpr mr vv (.call (.propertyAccess t.getExpression
        (cfg.customPrefix.getD DEFAULT_PREFIX ++ SETTER_PREFIX ++ name)
        false noRes) false false (.cons tn.getRight .nil))
      ≠ evalExpr mr vv tn.getRight := by
  have heval : evalExpr mr vv (.call (.propertyAccess t.getExpression
      (cfg.customPrefix.getD DEFAULT_PREFIX ++ SETTER_PREFIX ++ name)
      false noRes) false false (.cons tn.getRight .nil))
      = mr (cfg.customPrefix.getD DEFAULT_PREFIX ++ SETTER_PREFIX ++ name) := by
    simp [evalExpr]
  refine ⟨?_, heval, by rw [heval]; exact hne⟩
  have hpa := getChildOfType_binary
    (.propertyAccess target name q ⟨g, some false⟩) .equalsToken rhs
    (by simp [isPropertyAccessExpressionB])
  rw [visitBinaryExpression]
  split
  · rename_i hcontra
    simp [hpa] at hcontra
  · rename_i pa2 hsome
    rw [hpa] at hsome
    injection hsome with hpaeq
    subst hpaeq
    simp [Node.resolutionOf, Node.accessName, ht, htn]

/-- C10 witness: with every synthesized setter returning `0`, the rewrite of
`a.value = 5` is `a.__setvalue(5)`, whose value is `0`, not the assigned
`5`. -/
theorem c10_assignment_value_is_setter_return_witness :
    visitBinaryExpression ⟨none⟩ []
      (.binary (.propertyAccess (.identifier "a") "value" false
        ⟨some false, some false⟩) .equalsToken (.numericLiteral 5))
      = .ok (.call (.propertyAccess (.identifier "a") "__setvalue" false noRes)
          false false (.cons (.numericLiteral 5) .nil))
  ∧ evalExpr (fun _ => 0) (fun _ => 0)
      (.call (.propertyAccess (.identifier "a") "__setvalue" false noRes)
        false false (.cons (.numericLiteral 5) .nil))
      ≠ evalExpr (fun _ => 0) (fun _ => 0) (.numericLiteral 5) := by
  have h := c10_assignment_value_is_setter_return ⟨none⟩ [] (.identifier "a")
    (.numericLiteral 5)
    (.propertyAccess (.identifier "a") "value" false ⟨some false, some false⟩)
    (.binary (.propertyAccess (.identifier "a") "__setvalue" false noRes)
      .equalsToken (.numericLiteral 5))
    "value" false (some false) (fun _ => 0) (fun _ => 0)
    (by simp [transformChildren, visitNode, isExpressionB, visitExpression])
    (by simp [transformChildren, visitNode, isExpressionB, visitExpression,
          visitPropertyAccessExpression, inWritePosition, getAncestorOfType,
          isAssignmentExpressionB, isAssignmentOperator,
          isLeftHandSideExpressionB, isAsOrParen, Node.getLeft,
          Node.getExpression, DEFAULT_PREFIX, SETTER_PREFIX])
    (by simp [evalExpr, Node.getRight, DEFAULT_PREFIX, SETTER_PREFIX])
  refine ⟨?_, ?_⟩
  · have h1 := h.1
    simpa [Node.getExpression, Node.getRight, DEFAULT_PREFIX, SETTER_PREFIX]
      using h1
  · have h3 := h.2.2
    simpa [Node.getExpression, Node.getRight, DEFAULT_PREFIX, SETTER_PREFIX]
      using h3
